import Mathlib

/-!
Shallow embedding of `anki_year_delay/__init__.py`.

The program is a sequential script that talks to a local JSON-over-HTTP API
(AnkiConnect).  We embed it as a pure function from an *environment* (the
oracle of API responses) to the ordered list of requests it submits plus its
return code.  Machine arithmetic: Python ints are `Int`/`Nat`; the floating
point draw `random.uniform(0.9, 1.1)` and Python's banker's `round` are
modelled over `ℚ` (at the decisive endpoints `0.9 * 365.0 = 328.5` and
`1.1 * 365.0` the double computation agrees with exact rational arithmetic,
and Python's `round` on a representable half-integer rounds half to even).
-/

namespace AnkiYearDelay

/-- `ANKICONNECT_VERSION = 6` from the source. -/
def ANKICONNECT_VERSION : Nat := 6

/-- `BATCH_SIZE = 50` from the source. -/
def BATCH_SIZE : Nat := 50

/-- One AnkiConnect request, as built by `_main` / `ankiconnect_request`.
Parameters are restricted to the fields the program actually sends.
`answerCards` carries `(cardId, ease)` pairs. -/
inductive Req where
  | sync : Req
  | findCards (query : String) : Req
  | cardsInfo (cards : List Nat) : Req
  | getDeckConfig (deck : String) : Req
  | forgetCards (cards : List Nat) : Req
  | answerCards (answers : List (Nat × Nat)) : Req
  | setSpecificValueOfCard (card : Nat) (keys : List String) (newValues : List Int) : Req
  | removeTags (notes : List Nat) (tags : String) : Req
  | multi (actions : List Req) : Req

/-- The wire message: `ankiconnect_request` stamps `payload["version"] = 6`
onto the payload before posting it. -/
structure SentMsg where
  payload : Req
  version : Nat

/-- A parsed AnkiConnect response: `{result: any, error: string|null}`. -/
structure ApiResponse (α : Type) where
  result : α
  error : Option String
  deriving DecidableEq, Repr

/-- `ankiconnect_request(payload)`: stamp `version = 6`, post, warn (but do
nothing else) when `response["error"] is not None`, and return the response
unchanged.  The response is supplied by the environment; the returned triple
is (message sent, response returned to the caller, whether a warning was
logged). -/
def ankiconnect_request {α : Type} (payload : Req) (response : ApiResponse α) :
    SentMsg × ApiResponse α × Bool :=
  (⟨payload, ANKICONNECT_VERSION⟩, response, response.error.isSome)

/-- Fuel-driven worker for `batched`: one step takes the next `n` elements.
The fuel only makes the recursion structural (so that it reduces
definitionally); it never runs out when it starts at the list's length,
since every step consumes at least one element. -/
def batchedGo {α : Type} (n : Nat) : Nat → List α → List (List α)
  | _, [] => []
  | 0, _ :: _ => []
  | fuel + 1, x :: xs =>
    (x :: List.take (n - 1) xs) :: batchedGo n fuel (List.drop (n - 1) xs)

/-- `batched(iterable, n)` specialised to lists, for `n ≥ 1` (the guard is in
`batched_checked`): repeatedly take `n` elements until the input is empty,
mirroring `while batch := tuple(islice(it, n))`. -/
def batchedL {α : Type} (n : Nat) (l : List α) : List (List α) :=
  batchedGo n l.length l

/-- `batched(iterable, n)` including the `if n < 1: raise ValueError` guard;
the error value models the raised exception. -/
def batched_checked {α : Type} (l : List α) (n : Int) : Except String (List (List α)) :=
  if n < 1 then Except.error "n must be at least one"
  else Except.ok (batchedL n.toNat l)

/-- Python's built-in `round` on an exact rational value: round half to even. -/
def pyround (q : ℚ) : Int :=
  if q - ⌊q⌋ < 1 / 2 then ⌊q⌋
  else if 1 / 2 < q - ⌊q⌋ then ⌊q⌋ + 1
  else if ⌊q⌋ % 2 = 0 then ⌊q⌋ else ⌊q⌋ + 1

/-- `delay_day = round(random.uniform(0.9, 1.1) * 365.0)` as a function of
the uniform draw `u`. -/
def delay_day (u : ℚ) : Int := pyround (u * 365)

/-- `days_since_card_creation`: the card ID is its creation time in epoch
milliseconds (`cid // 1000` seconds); `(datetime_now - creation).days` is the
floor of the difference in days. -/
def days_since_card_creation (now : ℚ) (cid : Nat) : Int :=
  ⌊(now - ((cid / 1000 : Nat) : ℚ)) / 86400⌋

/-- `delay_day_index = today_day_index - days_since_card_creation + delay_day`. -/
def delay_day_index (today_day_index days_since delay : Int) : Int :=
  today_day_index - days_since + delay

/-- The per-card record the program reads out of a `cardsInfo` result in the
batch phase: `ci["cardId"]` and `ci["note"]` (plus `due`, unused there). -/
structure CardInfo where
  cardId : Nat
  note : Nat
  due : Int
  deriving DecidableEq, Repr

/-- The oracle of API responses consumed by one run of `_main`:
`findResult` is the `findCards` result; `probeType` gives the sample card's
queue `type` at the k-th probe fetch (k = number of answers submitted so
far); `finalDue` is the sample card's `due` at the re-fetch after the probe
loop; `deckNewInts` is `deckConfig["new"]["ints"]`; `info` gives each card's
`cardsInfo` record in the batch phase; `now` is `time.time()` in seconds;
`u` is the stream of `random.uniform(0.9, 1.1)` draws in call order. -/
structure Env where
  findResult : List Nat
  probeType : Nat → Int
  finalDue : Int
  deckNewInts : List Int
  info : Nat → CardInfo
  now : ℚ
  u : Nat → ℚ

/-- `graduating_interval = deckConfig["new"]["ints"][0]`. -/
def graduating_interval (env : Env) : Int := env.deckNewInts.headI

/-- `today_day_index = ci["due"] - graduating_interval` (step 8 re-fetch). -/
def today_day_index (env : Env) : Int := env.finalDue - graduating_interval env

/-- The `findCards` query string: fixed note type and deck, the trigger tag,
and the `edited:` filter only when `args.edited` is truthy (so not for 0). -/
def queryFor (tag : String) (edited : Option Int) : String :=
  let base := "\"note:Pocket Article\" \"deck:Articles\" \"tag:" ++ tag ++ "\""
  match edited with
  | none => base
  | some e => if e = 0 then base else base ++ " edited:" ++ toString e

/-- One step of the probe loop, `fuel = 10 - review_count` iterations left:
fetch the card's info; stop if its `type` is 2; otherwise answer ease 3 and
increment `review_count` (the `k` argument).  Returns the final
`review_count` and the requests issued. -/
def probeAux (ty : Nat → Int) (fid : Nat) : Nat → Nat → Nat × List Req
  | k, 0 => (k, [])
  | k, fuel + 1 =>
    if ty k = 2 then (k, [Req.cardsInfo [fid]])
    else
      let r := probeAux ty fid (k + 1) fuel
      (r.1, Req.cardsInfo [fid] :: Req.answerCards [(fid, 3)] :: r.2)

/-- The probe loop `while review_count < 10: ...` of `_main`. -/
def probeLoop (ty : Nat → Int) (fid : Nat) : Nat × List Req :=
  probeAux ty fid 0 10

/-- The `actions` list built for one batch: for each `ci` in the `cardsInfo`
result, a `setSpecificValueOfCard` of the card's `due` followed by a
`removeTags` of the trigger tag on its owning note.  `k` is the index of the
next `random.uniform` draw. -/
def cardActions (tag : String) (today : Int) (now : ℚ) (u : Nat → ℚ) :
    Nat → List CardInfo → List Req
  | _, [] => []
  | k, ci :: rest =>
    let cid := ci.cardId
    let dsc := days_since_card_creation now cid
    let dd := delay_day (u k)
    Req.setSpecificValueOfCard cid ["due"] [delay_day_index today dsc dd] ::
    Req.removeTags [ci.note] tag ::
    cardActions tag today now u (k + 1) rest

/-- The requests issued for one batch `cids`: one `forgetCards`, then
`review_count` `answerCards` calls each answering every card in the batch
with ease 3, then one `cardsInfo`, then one `multi` with the queued
mutations.  `k` is the index of the next `random.uniform` draw. -/
def segmentFor (env : Env) (tag : String) (review_count : Nat) (today : Int)
    (k : Nat) (cids : List Nat) : List Req :=
  Req.forgetCards cids ::
    (List.replicate review_count (Req.answerCards (cids.map fun c => (c, 3))) ++
      [Req.cardsInfo cids,
       Req.multi (cardActions tag today env.now env.u k (cids.map env.info))])

/-- The batch phase: `for cids in batched(card_ids, BATCH_SIZE)`, threading
the random-draw counter (`cardsInfo` returns one record per card, so each
batch consumes `cids.length` draws). -/
def batchLoop (env : Env) (tag : String) (review_count : Nat) (today : Int) :
    List (List Nat) → Nat → List Req
  | [], _ => []
  | cids :: rest, k =>
    segmentFor env tag review_count today k cids ++
      batchLoop env tag review_count today rest (k + cids.length)

/-- `_main(tag, edited)` under the response oracle `env`: the ordered list of
requests submitted and the Python return value (`some 0` for the early
"no matching cards" return, `none` when the function falls off the end). -/
def mainTrace (env : Env) (tag : String) (edited : Option Int) :
    List Req × Option Int :=
  let card_ids := env.findResult
  if card_ids.isEmpty then
    ([Req.sync, Req.findCards (queryFor tag edited)], some 0)
  else
    let first_card_id := card_ids.headI
    let pr := probeLoop env.probeType first_card_id
    let today := today_day_index env
    ([Req.sync, Req.findCards (queryFor tag edited),
      Req.cardsInfo [first_card_id], Req.getDeckConfig "Articles",
      Req.forgetCards [first_card_id]] ++
      pr.2 ++ [Req.cardsInfo [first_card_id]] ++
      batchLoop env tag pr.1 today (batchedL BATCH_SIZE card_ids) 1 ++
      [Req.sync],
     none)

mutual

/-- Counts `answerCards` requests, including inside `multi` payloads. -/
def answer_count : Req → Nat
  | Req.answerCards _ => 1
  | Req.multi acts => answer_count_list acts
  | _ => 0

def answer_count_list : List Req → Nat
  | [] => 0
  | r :: rs => answer_count r + answer_count_list rs

end

/-- `true` on a `forgetCards` request. -/
def is_forget : Req → Bool
  | Req.forgetCards _ => true
  | _ => false

/-- `true` on a `multi` request. -/
def is_multi : Req → Bool
  | Req.multi _ => true
  | _ => false

/-- Counts top-level `forgetCards` requests. -/
def forget_count (l : List Req) : Nat := l.countP is_forget

/-- Counts top-level `multi` requests. -/
def multi_count (l : List Req) : Nat := l.countP is_multi

/-- `true` on a `removeTags` request. -/
def is_remove : Req → Bool
  | Req.removeTags _ _ => true
  | _ => false

/-- Checks that an action list consists of consecutive pairs: a
`setSpecificValueOfCard` of the `due` field immediately followed by a
`removeTags` of the trigger tag — so no tag removal is ever queued without a
rescheduling action right before it. -/
def pairedActions (tag : String) : List Req → Bool
  | [] => true
  | Req.setSpecificValueOfCard _ keys _ :: Req.removeTags _ t :: rest =>
      (keys == ["due"]) && (t == tag) && pairedActions tag rest
  | _ => false

theorem batchedGo_nil {α : Type} (n fuel : Nat) :
    batchedGo n fuel ([] : List α) = [] := by
  cases fuel <;> rfl

theorem batchedGo_flatten {α : Type} (n : Nat) :
    ∀ (fuel : Nat) (l : List α), l.length ≤ fuel →
      (batchedGo n fuel l).flatten = l := by
  intro fuel
  induction fuel with
  | zero =>
    intro l hl
    cases l with
    | nil => rfl
    | cons x xs => simp at hl
  | succ fuel ih =>
    intro l hl
    cases l with
    | nil => rfl
    | cons x xs =>
      simp only [List.length_cons] at hl
      simp only [batchedGo, List.flatten_cons]
      rw [ih (List.drop (n - 1) xs) (by simp only [List.length_drop]; omega),
        List.cons_append, List.take_append_drop]

theorem batchedGo_eq_nil_iff {α : Type} (n fuel : Nat) (l : List α)
    (hl : l.length ≤ fuel) : batchedGo n fuel l = [] ↔ l = [] := by
  cases l with
  | nil => simp [batchedGo_nil]
  | cons x xs =>
    cases fuel with
    | zero => simp at hl
    | succ fuel => simp [batchedGo]

theorem batchedGo_mem_ne_nil {α : Type} (n : Nat) :
    ∀ (fuel : Nat) (l : List α), ∀ b ∈ batchedGo n fuel l, b ≠ [] := by
  intro fuel
  induction fuel with
  | zero =>
    intro l b hb
    cases l <;> simp [batchedGo_nil, batchedGo] at hb
  | succ fuel ih =>
    intro l b hb
    cases l with
    | nil => simp [batchedGo_nil] at hb
    | cons x xs =>
      simp only [batchedGo] at hb
      rcases List.mem_cons.mp hb with h | h
      · simp [h]
      · exact ih (List.drop (n - 1) xs) b h

theorem batchedGo_dropLast_length {α : Type} (n : Nat) (hn : 1 ≤ n) :
    ∀ (fuel : Nat) (l : List α), l.length ≤ fuel →
      ∀ b ∈ (batchedGo n fuel l).dropLast, b.length = n := by
  intro fuel
  induction fuel with
  | zero =>
    intro l hl b hb
    cases l with
    | nil => simp [batchedGo_nil] at hb
    | cons x xs => simp at hl
  | succ fuel ih =>
    intro l hl b hb
    cases l with
    | nil => simp [batchedGo_nil] at hb
    | cons x xs =>
      simp only [batchedGo] at hb
      cases hr : batchedGo n fuel (List.drop (n - 1) xs) with
      | nil => simp [hr] at hb
      | cons r rs =>
        rw [hr, List.dropLast_cons_of_ne_nil (by simp)] at hb
        have hdlen : (List.drop (n - 1) xs).length ≤ fuel := by
          simp only [List.length_drop]
          simp only [List.length_cons] at hl
          omega
        rcases List.mem_cons.mp hb with h | h
        · have hdrop : List.drop (n - 1) xs ≠ [] := by
            intro hd
            rw [hd, batchedGo_nil] at hr
            exact List.noConfusion hr
          have hlen : n - 1 < xs.length := by
            by_contra hcon
            exact hdrop (List.drop_eq_nil_of_le (by omega))
          subst h
          simp only [List.length_cons, List.length_take]
          omega
        · have := ih (List.drop (n - 1) xs) hdlen b
          rw [hr] at this
          exact this h

theorem batchedGo_getLast?_length {α : Type} (n : Nat) (hn : 1 ≤ n) :
    ∀ (fuel : Nat) (l : List α) (b : List α),
      (batchedGo n fuel l).getLast? = some b →
      1 ≤ b.length ∧ b.length ≤ n := by
  intro fuel
  induction fuel with
  | zero =>
    intro l b hb
    cases l <;> simp [batchedGo_nil, batchedGo] at hb
  | succ fuel ih =>
    intro l b hb
    cases l with
    | nil => simp [batchedGo_nil] at hb
    | cons x xs =>
      simp only [batchedGo] at hb
      cases hr : batchedGo n fuel (List.drop (n - 1) xs) with
      | nil =>
        rw [hr] at hb
        simp only [List.getLast?_singleton, Option.some.injEq] at hb
        subst hb
        simp only [List.length_cons, List.length_take]
        omega
      | cons r rs =>
        rw [hr, List.getLast?_cons_cons] at hb
        have := ih (List.drop (n - 1) xs) b
        rw [hr] at this
        exact this hb

theorem batchedL_flatten {α : Type} (n : Nat) (l : List α) :
    (batchedL n l).flatten = l :=
  batchedGo_flatten n l.length l le_rfl

theorem batchedL_mem_ne_nil {α : Type} (n : Nat) (l : List α) :
    ∀ b ∈ batchedL n l, b ≠ [] :=
  batchedGo_mem_ne_nil n l.length l

theorem batchedL_dropLast_length {α : Type} (n : Nat) (hn : 1 ≤ n) (l : List α) :
    ∀ b ∈ (batchedL n l).dropLast, b.length = n :=
  batchedGo_dropLast_length n hn l.length l le_rfl

theorem batchedL_getLast?_length {α : Type} (n : Nat) (hn : 1 ≤ n) (l : List α) :
    ∀ b, (batchedL n l).getLast? = some b → 1 ≤ b.length ∧ b.length ≤ n :=
  batchedGo_getLast?_length n hn l.length l

/-- C4: `batched(card_ids, 50)` preserves order and total count (its
concatenation is the original list), every batch except possibly the last
has exactly `BATCH_SIZE` elements, and the last batch has between 1 and
`BATCH_SIZE` elements. -/
theorem batched_partition_correct (l : List Nat) (_hne : l ≠ []) :
    (batchedL BATCH_SIZE l).flatten = l ∧
    (∀ b ∈ (batchedL BATCH_SIZE l).dropLast, b.length = BATCH_SIZE) ∧
    (∀ b, (batchedL BATCH_SIZE l).getLast? = some b →
      1 ≤ b.length ∧ b.length ≤ BATCH_SIZE) :=
  ⟨batchedL_flatten BATCH_SIZE l,
   batchedL_dropLast_length BATCH_SIZE (by decide) l,
   batchedL_getLast?_length BATCH_SIZE (by decide) l⟩

set_option maxRecDepth 2000 in
/-- Witness for C4 at the concrete list `List.range 120`. -/
theorem batched_partition_correct_witness :
    (batchedL BATCH_SIZE (List.range 120)).flatten = List.range 120 ∧
    ((List.range 120).take BATCH_SIZE).length = BATCH_SIZE :=
  have h := batched_partition_correct (List.range 120) (by decide)
  ⟨h.1, by
    have := h.2.1 ((List.range 120).take BATCH_SIZE) (by decide)
    exact this⟩

/-- C9: `batched(iterable, n)` raises `ValueError` for every `n < 1`
independently of the input, and for `n ≥ 1` it is total and yields only
non-empty batches. -/
theorem batched_checked_guard (n : Int) (l : List Nat) :
    (n < 1 → batched_checked l n = Except.error "n must be at least one") ∧
    (1 ≤ n → ∃ bs, batched_checked l n = Except.ok bs ∧ ∀ b ∈ bs, b ≠ []) := by
  constructor
  · intro h
    simp [batched_checked, h]
  · intro h
    have h' : ¬ n < 1 := not_lt.mpr h
    refine ⟨batchedL n.toNat l, ?_, batchedL_mem_ne_nil n.toNat l⟩
    simp [batched_checked, h']

/-- Witness for C9 at `n = 0` (error) and `n = 2` (success). -/
theorem batched_checked_guard_witness :
    batched_checked [7] 0 = Except.error "n must be at least one" ∧
    ∃ bs, batched_checked [1, 2, 3] 2 = Except.ok bs ∧ ∀ b ∈ bs, b ≠ [] :=
  ⟨(batched_checked_guard 0 [7]).1 (by decide),
   (batched_checked_guard 2 [1, 2, 3]).2 (by decide)⟩

theorem le_pyround (q : ℚ) : ⌊q⌋ ≤ pyround q := by
  unfold pyround
  split_ifs <;> omega

theorem pyround_le (q : ℚ) : pyround q ≤ ⌊q⌋ + 1 := by
  unfold pyround
  split_ifs <;> omega

/-- C3 (amended): for any uniform draw `u ∈ [0.9, 1.1]`, the delay lies in
328–402 days (328, not 329, is attainable: Python's `round` takes
`0.9 * 365.0 = 328.5` half to even), and the new due value is
`todayDayIndex - daysSinceCreation + delayDays`, hence between 328 and 402
days after today adjusted for the card's age. -/
theorem delay_day_range (u : ℚ) (today dsc : Int)
    (hlo : 9 / 10 ≤ u) (hhi : u ≤ 11 / 10) :
    328 ≤ delay_day u ∧ delay_day u ≤ 402 ∧
    delay_day_index today dsc (delay_day u) = today - dsc + delay_day u ∧
    today - dsc + 328 ≤ delay_day_index today dsc (delay_day u) ∧
    delay_day_index today dsc (delay_day u) ≤ today - dsc + 402 := by
  have hq1 : (328 : ℚ) ≤ u * 365 := by nlinarith
  have hq2 : u * 365 < 402 := by nlinarith
  have h1 : (328 : Int) ≤ ⌊u * 365⌋ := Int.le_floor.mpr (by exact_mod_cast hq1)
  have h2 : ⌊u * 365⌋ < (402 : Int) := Int.floor_lt.mpr (by exact_mod_cast hq2)
  have hlo' : 328 ≤ delay_day u := le_trans h1 (le_pyround (u * 365))
  have hhi' : delay_day u ≤ 402 := le_trans (pyround_le (u * 365)) (by omega)
  exact ⟨hlo', hhi', rfl, by simp [delay_day_index]; omega, by simp [delay_day_index]; omega⟩

/-- Witness for the amended C3 at `u = 1`, `today = 10`, `dsc = 3`. -/
theorem delay_day_range_witness :
    328 ≤ delay_day 1 ∧ delay_day 1 ≤ 402 ∧
    delay_day_index 10 3 (delay_day 1) = 10 - 3 + delay_day 1 ∧
    10 - 3 + 328 ≤ delay_day_index 10 3 (delay_day 1) ∧
    delay_day_index 10 3 (delay_day 1) ≤ 10 - 3 + 402 :=
  delay_day_range 1 10 3 (by norm_num) (by norm_num)

theorem floor_657_half : ⌊(657 / 2 : ℚ)⌋ = 328 := by
  rw [Int.floor_eq_iff]
  norm_num

theorem delay_day_nine_tenths : delay_day (9 / 10) = 328 := by
  have hq : (9 / 10 : ℚ) * 365 = 657 / 2 := by norm_num
  unfold delay_day pyround
  rw [hq, floor_657_half]
  norm_num

/-- Counterexample to C3 as stated: at the attainable draw `u = 0.9`
(`random.uniform(0.9, 1.1)` returns its lower endpoint when `random()`
yields 0.0, and `0.9 * 365.0` is exactly `328.5` in double precision),
`delayDays` is 328, outside the claimed range 329–402. -/
theorem delay_day_claim_counterexample :
    (9 / 10 : ℚ) ≤ 9 / 10 ∧ (9 / 10 : ℚ) ≤ 11 / 10 ∧
    delay_day (9 / 10) = 328 ∧ ¬ 329 ≤ delay_day (9 / 10) :=
  ⟨le_refl _, by norm_num, delay_day_nine_tenths, by
    rw [delay_day_nine_tenths]
    omega⟩

/-- A sample response oracle used by the concrete witnesses: one matching
card (ID 1000), a sample card that is already graduated at the first probe
fetch, graduating interval 3, re-fetched `due` 5. -/
def sampleEnv : Env where
  findResult := [1000]
  probeType := fun _ => 2
  finalDue := 5
  deckNewInts := [3]
  info := fun c => ⟨c, c + 1, 0⟩
  now := 0
  u := fun _ => 1

/-- A response oracle whose `findCards` query comes back empty. -/
def emptyEnv : Env where
  findResult := []
  probeType := fun _ => 2
  finalDue := 5
  deckNewInts := [3]
  info := fun c => ⟨c, c + 1, 0⟩
  now := 0
  u := fun _ => 1

/-- C2: `todayDayIndex` equals the sample card's re-fetched `due` minus the
graduating interval read from the deck config's new-cards sub-configuration
(`deckConfig["new"]["ints"][0]`), for any interval in [1, 30] and any due
value at least the interval. -/
theorem today_day_index_correct (env : Env) (g : Int) (rest : List Int)
    (hcfg : env.deckNewInts = g :: rest) (_h1 : 1 ≤ g) (_h30 : g ≤ 30)
    (_hdue : g ≤ env.finalDue) :
    graduating_interval env = g ∧ today_day_index env = env.finalDue - g := by
  constructor
  · simp [graduating_interval, hcfg]
  · simp [today_day_index, graduating_interval, hcfg]

/-- Witness for C2 on `sampleEnv` (interval 3, due 5). -/
theorem today_day_index_correct_witness :
    graduating_interval sampleEnv = 3 ∧
    today_day_index sampleEnv = sampleEnv.finalDue - 3 :=
  today_day_index_correct sampleEnv 3 [] rfl (by decide) (by decide) (by decide)

/-- C5: when `findCards` comes back empty, the program logs, returns exit
code 0, and submits nothing beyond the initial `sync` and the `findCards`
itself — in particular no `getDeckConfig`, `forgetCards`, `answerCards`,
`setSpecificValueOfCard`, `removeTags` or `multi` request follows. -/
theorem empty_find_early_return (env : Env) (tag : String) (edited : Option Int)
    (hempty : env.findResult = []) :
    mainTrace env tag edited =
      ([Req.sync, Req.findCards (queryFor tag edited)], some 0) := by
  simp [mainTrace, hempty]

/-- Witness for C5 on `emptyEnv`. -/
theorem empty_find_early_return_witness :
    mainTrace emptyEnv "anki:year-delay" none =
      ([Req.sync, Req.findCards (queryFor "anki:year-delay" none)], some 0) :=
  empty_find_early_return emptyEnv "anki:year-delay" none rfl

/-- C8: `ankiconnect_request` stamps `version = 6` on every request body,
and whether or not the response reports an error it returns the response to
the caller unchanged — the error only triggers a warning log (the boolean),
never a retry, exception, or abort. -/
theorem ankiconnect_request_behavior {α : Type} (payload : Req)
    (response : ApiResponse α) :
    (ankiconnect_request payload response).2.1 = response ∧
    (ankiconnect_request payload response).1 =
      ⟨payload, ANKICONNECT_VERSION⟩ ∧
    (ankiconnect_request payload response).1.version = 6 ∧
    ((ankiconnect_request payload response).2.2 = true ↔
      response.error ≠ none) := by
  refine ⟨rfl, rfl, rfl, ?_⟩
  simp [ankiconnect_request, Option.isSome_iff_ne_none]

theorem probeAux_stop (ty : Nat → Int) (fid k fuel : Nat) (h : ty k = 2) :
    probeAux ty fid k (fuel + 1) = (k, [Req.cardsInfo [fid]]) := by
  simp [probeAux, h]

theorem probeAux_step (ty : Nat → Int) (fid k fuel : Nat) (h : ¬ ty k = 2) :
    probeAux ty fid k (fuel + 1) =
      ((probeAux ty fid (k + 1) fuel).1,
       Req.cardsInfo [fid] :: Req.answerCards [(fid, 3)] ::
         (probeAux ty fid (k + 1) fuel).2) := by
  simp [probeAux, h]

theorem probeAux_count_le (ty : Nat → Int) (fid : Nat) :
    ∀ (fuel k : Nat), (probeAux ty fid k fuel).1 ≤ k + fuel := by
  intro fuel
  induction fuel with
  | zero => intro k; simp [probeAux]
  | succ fuel ih =>
    intro k
    by_cases h : ty k = 2
    · rw [probeAux_stop ty fid k fuel h]
      omega
    · rw [probeAux_step ty fid k fuel h]
      have := ih (k + 1)
      omega

theorem probeAux_count_ge (ty : Nat → Int) (fid : Nat) :
    ∀ (fuel k : Nat), k ≤ (probeAux ty fid k fuel).1 := by
  intro fuel
  induction fuel with
  | zero => intro k; simp [probeAux]
  | succ fuel ih =>
    intro k
    by_cases h : ty k = 2
    · rw [probeAux_stop ty fid k fuel h]
    · rw [probeAux_step ty fid k fuel h]
      have := ih (k + 1)
      omega

theorem probeAux_answer_count (ty : Nat → Int) (fid : Nat) :
    ∀ (fuel k : Nat),
      answer_count_list (probeAux ty fid k fuel).2 =
        (probeAux ty fid k fuel).1 - k := by
  intro fuel
  induction fuel with
  | zero => intro k; simp [probeAux, answer_count_list]
  | succ fuel ih =>
    intro k
    by_cases h : ty k = 2
    · rw [probeAux_stop ty fid k fuel h]
      simp [answer_count_list, answer_count]
    · rw [probeAux_step ty fid k fuel h]
      simp only [answer_count_list, answer_count]
      have h1 := ih (k + 1)
      have h2 := probeAux_count_ge ty fid fuel (k + 1)
      omega

theorem probeAux_exhaust (ty : Nat → Int) (fid : Nat) :
    ∀ (fuel k : Nat), (∀ j, k ≤ j → j < k + fuel → ty j ≠ 2) →
      (probeAux ty fid k fuel).1 = k + fuel := by
  intro fuel
  induction fuel with
  | zero => intro k _; simp [probeAux]
  | succ fuel ih =>
    intro k hno
    have hk : ty k ≠ 2 := hno k le_rfl (by omega)
    rw [probeAux_step ty fid k fuel hk]
    have := ih (k + 1) (fun j h1 h2 => hno j (by omega) (by omega))
    omega

/-- C6: the probe loop runs at most 10 iterations; each iteration fetches
the sample card's info and stops without answering once its queue type is 2,
otherwise submits one ease-3 answer and counts it (the review counter equals
the number of `answerCards` requests issued); if the type becomes 2 after
exactly 2 good answers the loop ends at `review_count = 2` with exactly 2
`answerCards` requests; and if all 10 iterations pass without graduation the
program still completes normally (no error return). -/
theorem probe_loop_behavior (ty : Nat → Int) (fid : Nat) :
    (probeLoop ty fid).1 ≤ 10 ∧
    answer_count_list (probeLoop ty fid).2 = (probeLoop ty fid).1 ∧
    (ty 0 ≠ 2 → ty 1 ≠ 2 → ty 2 = 2 →
      (probeLoop ty fid).1 = 2 ∧
      answer_count_list (probeLoop ty fid).2 = 2) ∧
    ((∀ k, k < 10 → ty k ≠ 2) → (probeLoop ty fid).1 = 10) ∧
    (∀ (env : Env) (tag : String) (edited : Option Int),
      env.findResult ≠ [] → (mainTrace env tag edited).2 = none) := by
  refine ⟨probeAux_count_le ty fid 10 0, ?_, ?_, ?_, ?_⟩
  · show answer_count_list (probeAux ty fid 0 10).2 = (probeAux ty fid 0 10).1
    rw [probeAux_answer_count ty fid 10 0]
    omega
  · intro h0 h1 h2
    have hstop : probeAux ty fid 2 8 = (2, [Req.cardsInfo [fid]]) :=
      probeAux_stop ty fid 2 7 h2
    have hcalc : probeLoop ty fid =
        (2, Req.cardsInfo [fid] :: Req.answerCards [(fid, 3)] ::
          Req.cardsInfo [fid] :: Req.answerCards [(fid, 3)] ::
          [Req.cardsInfo [fid]]) := by
      show probeAux ty fid 0 10 = _
      rw [show (10 : Nat) = 9 + 1 from rfl, probeAux_step ty fid 0 9 h0,
        show (9 : Nat) = 8 + 1 from rfl, probeAux_step ty fid 1 8 h1,
        hstop]
    rw [hcalc]
    exact ⟨rfl, by simp [answer_count_list, answer_count]⟩
  · intro hno
    exact probeAux_exhaust ty fid 10 0 (fun j _ h2 => hno j (by omega))
  · intro env tag edited hne
    have : env.findResult.isEmpty = false := by
      cases h : env.findResult with
      | nil => exact absurd h hne
      | cons a as => rfl
    simp [mainTrace, this]

/-- Witness for C6: card graduates after exactly 2 good answers. -/
theorem probe_loop_behavior_witness :
    (probeLoop (fun k => if k < 2 then (0 : Int) else 2) 7).1 = 2 ∧
    answer_count_list
      (probeLoop (fun k => if k < 2 then (0 : Int) else 2) 7).2 = 2 :=
  (probe_loop_behavior (fun k => if k < 2 then (0 : Int) else 2) 7).2.2.1
    (by decide) (by decide) (by decide)

theorem answer_count_list_append (l1 l2 : List Req) :
    answer_count_list (l1 ++ l2) = answer_count_list l1 + answer_count_list l2 := by
  induction l1 with
  | nil => simp [answer_count_list]
  | cons r rs ih =>
    have h1 : answer_count_list ((r :: rs) ++ l2) =
        answer_count r + answer_count_list (rs ++ l2) := rfl
    have h2 : answer_count_list (r :: rs) =
        answer_count r + answer_count_list rs := rfl
    rw [h1, ih, h2]
    omega

theorem answer_count_list_replicate (n : Nat) (r : Req) :
    answer_count_list (List.replicate n r) = n * answer_count r := by
  induction n with
  | zero => simp [answer_count_list]
  | succ n ih =>
    simp only [List.replicate_succ, answer_count_list, ih]
    ring

theorem answer_count_cardActions (tag : String) (today : Int) (now : ℚ)
    (u : Nat → ℚ) : ∀ (cis : List CardInfo) (k : Nat),
    answer_count_list (cardActions tag today now u k cis) = 0 := by
  intro cis
  induction cis with
  | nil => intro k; simp [cardActions, answer_count_list]
  | cons ci rest ih =>
    intro k
    simp [cardActions, answer_count_list, answer_count, ih (k + 1)]

theorem cardActions_length (tag : String) (today : Int) (now : ℚ)
    (u : Nat → ℚ) : ∀ (cis : List CardInfo) (k : Nat),
    (cardActions tag today now u k cis).length = 2 * cis.length := by
  intro cis
  induction cis with
  | nil => intro k; simp [cardActions]
  | cons ci rest ih =>
    intro k
    simp only [cardActions, List.length_cons, ih (k + 1)]
    omega

theorem pairedActions_cardActions (tag : String) (today : Int) (now : ℚ)
    (u : Nat → ℚ) : ∀ (cis : List CardInfo) (k : Nat),
    pairedActions tag (cardActions tag today now u k cis) = true := by
  intro cis
  induction cis with
  | nil => intro k; simp [cardActions, pairedActions]
  | cons ci rest ih =>
    intro k
    simp [cardActions, pairedActions, ih (k + 1)]

theorem mem_probeAux_cases (ty : Nat → Int) (fid : Nat) :
    ∀ (fuel k : Nat) (r : Req), r ∈ (probeAux ty fid k fuel).2 →
      r = Req.cardsInfo [fid] ∨ r = Req.answerCards [(fid, 3)] := by
  intro fuel
  induction fuel with
  | zero => intro k r hr; simp [probeAux] at hr
  | succ fuel ih =>
    intro k r hr
    by_cases h : ty k = 2
    · rw [probeAux_stop ty fid k fuel h] at hr
      simp at hr
      exact Or.inl hr
    · rw [probeAux_step ty fid k fuel h] at hr
      rcases List.mem_cons.mp hr with h1 | h1
      · exact Or.inl h1
      · rcases List.mem_cons.mp h1 with h2 | h2
        · exact Or.inr h2
        · exact ih (k + 1) r h2

theorem mem_segmentFor_cases (env : Env) (tag : String) (rc : Nat) (today : Int)
    (k : Nat) (cids : List Nat) (r : Req)
    (hr : r ∈ segmentFor env tag rc today k cids) :
    r = Req.forgetCards cids ∨
    r = Req.answerCards (cids.map fun c => (c, 3)) ∨
    r = Req.cardsInfo cids ∨
    r = Req.multi (cardActions tag today env.now env.u k (cids.map env.info)) := by
  simp only [segmentFor, List.mem_cons, List.mem_append] at hr
  rcases hr with h | h
  · exact Or.inl h
  rcases h with h | h
  · exact Or.inr (Or.inl (List.eq_of_mem_replicate h))
  rcases h with h | h
  · exact Or.inr (Or.inr (Or.inl h))
  rcases h with h | h
  · exact Or.inr (Or.inr (Or.inr h))
  · simp at h

theorem mem_batchLoop_cases (env : Env) (tag : String) (rc : Nat) (today : Int) :
    ∀ (batches : List (List Nat)) (k : Nat) (r : Req),
      r ∈ batchLoop env tag rc today batches k →
      ∃ cids k', cids ∈ batches ∧ r ∈ segmentFor env tag rc today k' cids := by
  intro batches
  induction batches with
  | nil => intro k r hr; simp [batchLoop] at hr
  | cons cds rest ih =>
    intro k r hr
    simp only [batchLoop] at hr
    rcases List.mem_append.mp hr with h | h
    · exact ⟨cds, k, List.mem_cons_self cds rest, h⟩
    · obtain ⟨cids, k', hmem, hseg⟩ := ih (k + cds.length) r h
      exact ⟨cids, k', List.mem_cons_of_mem cds hmem, hseg⟩

theorem countP_replicate_eq_zero (p : Req → Bool) (n : Nat) (r : Req)
    (h : p r = false) : List.countP p (List.replicate n r) = 0 := by
  induction n with
  | zero => simp
  | succ n ih => simp [List.replicate_succ, List.countP_cons, ih, h]

theorem forget_count_segmentFor (env : Env) (tag : String) (rc : Nat)
    (today : Int) (k : Nat) (cids : List Nat) :
    forget_count (segmentFor env tag rc today k cids) = 1 := by
  simp [segmentFor, forget_count, List.countP_cons, List.countP_append,
    countP_replicate_eq_zero is_forget rc
      (Req.answerCards (cids.map fun c => (c, 3))) rfl, is_forget]

theorem multi_count_segmentFor (env : Env) (tag : String) (rc : Nat)
    (today : Int) (k : Nat) (cids : List Nat) :
    multi_count (segmentFor env tag rc today k cids) = 1 := by
  simp [segmentFor, multi_count, List.countP_cons, List.countP_append,
    countP_replicate_eq_zero is_multi rc
      (Req.answerCards (cids.map fun c => (c, 3))) rfl, is_multi]

theorem answer_count_segmentFor (env : Env) (tag : String) (rc : Nat)
    (today : Int) (k : Nat) (cids : List Nat) :
    answer_count_list (segmentFor env tag rc today k cids) = rc := by
  simp only [segmentFor, answer_count_list, answer_count,
    answer_count_list_append, answer_count_list_replicate,
    answer_count_cardActions]
  omega

theorem answer_count_batchLoop (env : Env) (tag : String) (rc : Nat)
    (today : Int) : ∀ (batches : List (List Nat)) (k : Nat),
    answer_count_list (batchLoop env tag rc today batches k) =
      batches.length * rc := by
  intro batches
  induction batches with
  | nil => intro k; simp [batchLoop, answer_count_list]
  | cons cds rest ih =>
    intro k
    simp only [batchLoop, answer_count_list_append, answer_count_segmentFor,
      ih (k + cds.length), List.length_cons]
    ring

theorem batchedGo_congr {α : Type} (n : Nat) :
    ∀ (f1 : Nat) (f2 : Nat) (l : List α), l.length ≤ f1 → l.length ≤ f2 →
      batchedGo n f1 l = batchedGo n f2 l := by
  intro f1
  induction f1 with
  | zero =>
    intro f2 l h1 h2
    cases l with
    | nil => rw [batchedGo_nil, batchedGo_nil]
    | cons x xs => simp at h1
  | succ f ih =>
    intro f2 l h1 h2
    cases l with
    | nil => rw [batchedGo_nil, batchedGo_nil]
    | cons x xs =>
      cases f2 with
      | zero => simp at h2
      | succ f2 =>
        simp only [batchedGo]
        congr 1
        simp only [List.length_cons] at h1 h2
        exact ih f2 (List.drop (n - 1) xs)
          (by simp only [List.length_drop]; omega)
          (by simp only [List.length_drop]; omega)

theorem batchedL_cons_eq {α : Type} (n : Nat) (hn : 1 ≤ n) (l : List α)
    (hne : l ≠ []) :
    batchedL n l = l.take n :: batchedL n (l.drop n) := by
  cases l with
  | nil => exact absurd rfl hne
  | cons x xs =>
    obtain ⟨m, rfl⟩ : ∃ m, n = m + 1 := ⟨n - 1, by omega⟩
    show batchedGo (m + 1) (xs.length + 1) (x :: xs) = _
    simp only [batchedGo, Nat.add_sub_cancel, List.take_succ_cons,
      List.drop_succ_cons]
    congr 1
    exact batchedGo_congr (m + 1) xs.length (List.drop m xs).length
      (List.drop m xs) (by simp only [List.length_drop]; omega) le_rfl

theorem batchedL_of_length_120 (l : List Nat) (h : l.length = 120) :
    (batchedL BATCH_SIZE l).map List.length = [50, 50, 20] := by
  have hne : l ≠ [] := by
    intro he
    rw [he] at h
    simp at h
  have hd1 : (l.drop 50).length = 70 := by
    simp only [List.length_drop, h]
  have hd2 : ((l.drop 50).drop 50).length = 20 := by
    simp only [List.length_drop, h]
  have hd3 : ((l.drop 50).drop 50).drop 50 = [] :=
    List.eq_nil_of_length_eq_zero (by simp only [List.length_drop, h])
  have hne1 : l.drop 50 ≠ [] := by
    intro hh
    rw [hh] at hd1
    simp at hd1
  have hne2 : (l.drop 50).drop 50 ≠ [] := by
    intro hh
    rw [hh] at hd2
    simp at hd2
  show (batchedL 50 l).map List.length = [50, 50, 20]
  rw [batchedL_cons_eq 50 (by omega) l hne,
    batchedL_cons_eq 50 (by omega) (l.drop 50) hne1,
    batchedL_cons_eq 50 (by omega) ((l.drop 50).drop 50) hne2, hd3,
    show batchedL 50 ([] : List Nat) = [] from rfl]
  simp [List.length_take, h, hd1, hd2]

theorem multi_mem_mainTrace (env : Env) (tag : String) (edited : Option Int)
    (acts : List Req) (h : Req.multi acts ∈ (mainTrace env tag edited).1) :
    ∃ cids k, cids ∈ batchedL BATCH_SIZE env.findResult ∧
      acts = cardActions tag (today_day_index env) env.now env.u k
        (cids.map env.info) := by
  by_cases he : env.findResult.isEmpty
  · simp [mainTrace, he] at h
  · simp only [mainTrace, Bool.not_eq_true] at he ⊢
    simp only [mainTrace, he, Bool.false_eq_true, if_false, List.mem_append,
      List.mem_cons, List.not_mem_nil, or_false] at h
    rcases h with ((((h | h | h | h | h) | h) | h) | h) | h
    · exact absurd h (by simp)
    · exact absurd h (by simp)
    · exact absurd h (by simp)
    · exact absurd h (by simp)
    · exact absurd h (by simp)
    · rcases mem_probeAux_cases env.probeType env.findResult.headI 10 0
        (Req.multi acts) h with h2 | h2 <;> simp at h2
    · exact absurd h (by simp)
    · obtain ⟨cids, k', hmem, hseg⟩ :=
        mem_batchLoop_cases env tag _ _ _ 1 _ h
      rcases mem_segmentFor_cases env tag _ _ k' cids _ hseg with
        h2 | h2 | h2 | h2
      · simp at h2
      · simp at h2
      · simp at h2
      · exact ⟨cids, k', hmem, by injection h2⟩
    · exact absurd h (by simp)

theorem no_top_level_removeTags (env : Env) (tag : String)
    (edited : Option Int) :
    ∀ r ∈ (mainTrace env tag edited).1, is_remove r = false := by
  intro r hr
  by_cases he : env.findResult.isEmpty
  · simp [mainTrace, he] at hr
    rcases hr with h | h <;> simp [h, is_remove]
  · simp only [Bool.not_eq_true] at he
    simp only [mainTrace, he, Bool.false_eq_true, if_false, List.mem_append,
      List.mem_cons, List.not_mem_nil, or_false] at hr
    rcases hr with ((((h | h | h | h | h) | h) | h) | h) | h
    · subst h; rfl
    · subst h; rfl
    · subst h; rfl
    · subst h; rfl
    · subst h; rfl
    · rcases mem_probeAux_cases env.probeType env.findResult.headI 10 0 r h
        with h2 | h2 <;> (subst h2; rfl)
    · subst h; rfl
    · obtain ⟨cids, k', _, hseg⟩ := mem_batchLoop_cases env tag _ _ _ 1 _ h
      rcases mem_segmentFor_cases env tag _ _ k' cids _ hseg with
        h2 | h2 | h2 | h2 <;> (subst h2; rfl)
    · subst h; rfl

/-- C1: every `multi` payload submitted by a batch consists of consecutive
pairs — a `setSpecificValueOfCard` of the card's `due` field immediately
followed by the `removeTags` of the trigger tag on its owning note — so a
tag removal is never queued without its rescheduling action placed before
it in the same payload; moreover no `removeTags` request is ever submitted
outside a `multi` payload. -/
theorem multi_payload_paired (env : Env) (tag : String) (edited : Option Int) :
    (∀ acts, Req.multi acts ∈ (mainTrace env tag edited).1 →
      pairedActions tag acts = true) ∧
    (∀ r ∈ (mainTrace env tag edited).1, is_remove r = false) := by
  constructor
  · intro acts h
    obtain ⟨cids, k, _, hacts⟩ := multi_mem_mainTrace env tag edited acts h
    rw [hacts]
    exact pairedActions_cardActions tag (today_day_index env) env.now env.u
      (cids.map env.info) k
  · exact no_top_level_removeTags env tag edited

/-- Witness for C1: the single `multi` payload of a run over `sampleEnv`
passes the pairing check. -/
theorem multi_payload_paired_witness :
    pairedActions "t"
      (cardActions "t" (today_day_index sampleEnv) sampleEnv.now sampleEnv.u 1
        (List.map sampleEnv.info [1000])) = true := by
  refine (multi_payload_paired sampleEnv "t" none).1 _ ?_
  have hL : (mainTrace sampleEnv "t" none).1 =
      [Req.sync, Req.findCards (queryFor "t" none), Req.cardsInfo [1000],
       Req.getDeckConfig "Articles", Req.forgetCards [1000],
       Req.cardsInfo [1000], Req.cardsInfo [1000], Req.forgetCards [1000],
       Req.cardsInfo [1000],
       Req.multi (cardActions "t" (today_day_index sampleEnv) sampleEnv.now
         sampleEnv.u 1 (List.map sampleEnv.info [1000])),
       Req.sync] := rfl
  rw [hL]
  simp

/-- C7: 120 matching card IDs are processed as exactly 3 batches of sizes
50, 50, 20; each batch's request segment has exactly one `forgetCards`,
`review_count` many `answerCards` requests each answering every card of the
batch with ease 3, and exactly one `multi` whose action list has length
`2 × batch size` (one `setSpecificValueOfCard` plus one `removeTags` per
card). -/
theorem batch_phase_120 (env : Env) (tag : String) (rc : Nat) (today : Int)
    (l : List Nat) (h : l.length = 120) :
    (batchedL BATCH_SIZE l).map List.length = [50, 50, 20] ∧
    (∀ cids, cids ∈ batchedL BATCH_SIZE l → ∀ k,
      forget_count (segmentFor env tag rc today k cids) = 1 ∧
      answer_count_list (segmentFor env tag rc today k cids) = rc ∧
      (∀ a, Req.answerCards a ∈ segmentFor env tag rc today k cids →
        a = cids.map fun c => (c, 3)) ∧
      multi_count (segmentFor env tag rc today k cids) = 1 ∧
      (∀ acts, Req.multi acts ∈ segmentFor env tag rc today k cids →
        acts.length = 2 * cids.length)) := by
  refine ⟨batchedL_of_length_120 l h, ?_⟩
  intro cids _ k
  refine ⟨forget_count_segmentFor env tag rc today k cids,
    answer_count_segmentFor env tag rc today k cids, ?_,
    multi_count_segmentFor env tag rc today k cids, ?_⟩
  · intro a ha
    rcases mem_segmentFor_cases env tag rc today k cids _ ha with
      h2 | h2 | h2 | h2
    · exact absurd h2 (by simp)
    · injection h2
    · exact absurd h2 (by simp)
    · exact absurd h2 (by simp)
  · intro acts ha
    rcases mem_segmentFor_cases env tag rc today k cids _ ha with
      h2 | h2 | h2 | h2
    · exact absurd h2 (by simp)
    · exact absurd h2 (by simp)
    · exact absurd h2 (by simp)
    · have hacts : acts = cardActions tag today env.now env.u k
          (cids.map env.info) := by injection h2
      rw [hacts, cardActions_length tag today env.now env.u (cids.map env.info) k,
        List.length_map]

set_option maxRecDepth 4000 in
/-- Witness for C7 at the concrete input `List.range 120` (first batch,
`review_count = 2`). -/
theorem batch_phase_120_witness :
    (batchedL BATCH_SIZE (List.range 120)).map List.length = [50, 50, 20] ∧
    forget_count
      (segmentFor sampleEnv "t" 2 0 1 ((List.range 120).take 50)) = 1 ∧
    answer_count_list
      (segmentFor sampleEnv "t" 2 0 1 ((List.range 120).take 50)) = 2 :=
  have h := batch_phase_120 sampleEnv "t" 2 0 (List.range 120) (by simp)
  have hm := h.2 ((List.range 120).take 50) (by decide) 1
  ⟨h.1, hm.1, hm.2.1⟩

/-- C10: if the sample card is already graduated at the first probe fetch,
the probe loop ends immediately with `review_count = 0` and the whole run
issues no `answerCards` request at all (also not nested in a `multi`):
batches are only forgotten, fetched and rescheduled. -/
theorem graduated_immediately_no_answers (env : Env) (tag : String)
    (edited : Option Int) (f : Nat) (rest : List Nat)
    (hfind : env.findResult = f :: rest) (h0 : env.probeType 0 = 2) :
    probeLoop env.probeType f = (0, [Req.cardsInfo [f]]) ∧
    answer_count_list (mainTrace env tag edited).1 = 0 := by
  have hpr : probeLoop env.probeType f = (0, [Req.cardsInfo [f]]) := by
    show probeAux env.probeType f 0 10 = _
    rw [show (10 : Nat) = 9 + 1 from rfl, probeAux_stop env.probeType f 0 9 h0]
  refine ⟨hpr, ?_⟩
  have hh : (f :: rest).headI = f := rfl
  simp only [mainTrace, hfind, List.isEmpty_cons, Bool.false_eq_true, if_false,
    hh, hpr]
  rw [answer_count_list_append, answer_count_list_append,
    answer_count_list_append, answer_count_list_append,
    answer_count_batchLoop]
  simp [answer_count_list, answer_count]

/-- Witness for C10 on `sampleEnv` (probe type 2 at the first fetch). -/
theorem graduated_immediately_no_answers_witness :
    probeLoop sampleEnv.probeType 1000 = (0, [Req.cardsInfo [1000]]) ∧
    answer_count_list (mainTrace sampleEnv "t" none).1 = 0 :=
  graduated_immediately_no_answers sampleEnv "t" none 1000 [] rfl rfl

end AnkiYearDelay
